import Mathlib

/-!
# Shallow embedding of the fifteen-puzzle board (src/src/main.rs)

The Rust program keeps a `Board { cells: Vec<i32>, size: u8, solved: bool }`
and mutates it through `check_solved`, `new`, `scramble`, `get_empty_index`,
`get_neighbor_index` and `move_empty`.  We embed the board as a Lean
structure over `List Int` and model each method as a pure function.
Mutating methods return the new board; methods that can panic
(`Option::unwrap` in `get_empty_index`, out-of-bounds `Vec::swap` in
`move_empty`) are modelled with `Option`, where `none` stands for a panic.
Rendering, input polling and the window title are outside the core and are
not modelled.
-/

/-- The four slide directions (`enum Direction`). -/
inductive Direction : Type where
  | up : Direction
  | down : Direction
  | left : Direction
  | right : Direction
deriving DecidableEq

/-- `struct Board { cells: Vec<i32>, size: u8, solved: bool }`. -/
structure Board : Type where
  cells : List Int
  size : Nat
  solved : Bool
deriving DecidableEq

namespace Board

/-- The loop body of `check_solved`: scan `cells` with a running index `k`,
returning `false` as soon as some cell differs from its 1-based index
(`if *cell != i as i32 + 1 { solved = false; break; }`). -/
def checkSolvedGo : List Int → Int → Bool
  | [], _ => true
  | c :: rest, k => if c ≠ k + 1 then false else checkSolvedGo rest (k + 1)

/-- The value `check_solved` stores into `self.solved`, as a function of the
cells alone. -/
def checkSolvedList (cells : List Int) : Bool :=
  checkSolvedGo cells 0

/-- `fn check_solved(&mut self)`: recompute the `solved` cache from `cells`. -/
def check_solved (b : Board) : Board :=
  { b with solved := checkSolvedList b.cells }

/-- `fn new(cells: Vec<i32>, size: u8) -> Board`: build the record with
`solved = false`, then run `check_solved`. -/
def new (cells : List Int) (size : Nat) : Board :=
  check_solved { cells := cells, size := size, solved := false }

/-- `fn get_empty_index(&self) -> usize`:
`self.cells.iter().position(|cell| *cell == 16).unwrap()`.  The search value
is the literal `16`, independent of `self.size`.  `none` models the panic of
`unwrap` when no cell holds 16. -/
def get_empty_index (b : Board) : Option Nat :=
  b.cells.findIdx? (fun cell => cell == 16)

/-- `fn get_neighbor_index(&self, index: usize, direction: Direction) ->
Option<usize>`: pure row/column arithmetic with `row = index / size`,
`col = index % size`, returning `None` at the grid boundary. -/
def get_neighbor_index (b : Board) (index : Nat) (direction : Direction) :
    Option Nat :=
  let row := index / b.size
  let col := index % b.size
  match direction with
  | Direction.up =>
      if row = 0 then none else some ((row - 1) * b.size + col)
  | Direction.down =>
      if row = b.size - 1 then none else some ((row + 1) * b.size + col)
  | Direction.left =>
      if col = 0 then none else some (row * b.size + col - 1)
  | Direction.right =>
      if col = b.size - 1 then none else some (row * b.size + col + 1)

/-- `Vec::swap(i, j)` on a list, for in-bounds `i`, `j`: write the old
`l[j]` at `i` and the old `l[i]` at `j`.  (Callers guard the bounds; see
`move_empty`.) -/
def swapCells (l : List Int) (i j : Nat) : List Int :=
  (l.set i (l.getD j 0)).set j (l.getD i 0)

/-- `fn move_empty(&mut self, direction: Direction)`: locate the empty slot
(`get_empty_index`, whose `unwrap` panic is the outer `none`), resolve the
neighbor, swap if it exists (`Vec::swap` panics when an index is out of
bounds, modelled as `none`; with `cells.length = size * size` this never
happens), and recompute `solved` in every case. -/
def move_empty (b : Board) (direction : Direction) : Option Board :=
  match b.get_empty_index with
  | none => none
  | some empty_index =>
    match b.get_neighbor_index empty_index direction with
    | some neighbor_index =>
        if empty_index < b.cells.length ∧ neighbor_index < b.cells.length then
          some (check_solved { b with cells := swapCells b.cells empty_index neighbor_index })
        else
          none
    | none => some (check_solved b)

/-- Apply a finite sequence of `move_empty` calls, propagating a panic. -/
def applyMoves : Board → List Direction → Option Board
  | b, [] => some b
  | b, d :: ds =>
    match b.move_empty d with
    | none => none
    | some b2 => applyMoves b2 ds

/-- The solved sequence `[1, 2, ..., n]` as `i32` values:
`(1..n + 1).collect()`. -/
def idSeq (n : Nat) : List Int :=
  (List.range n).map (fun i : Nat => (i : Int) + 1)

/-- The rounds of `scramble`: each element of `rounds` is the list of
directions one iteration of the outer loop feeds to `move_empty` (its length
is that iteration's `move_count`); the outer loop stops early as soon as a
round leaves the board unsolved. -/
def scrambleGo : Board → List (List Direction) → Option Board
  | b, [] => some b
  | b, r :: rs =>
    match applyMoves b r with
    | none => none
    | some b2 => if b2.solved then scrambleGo b2 rs else some b2

/-- `fn scramble(&mut self)`: reset `cells` to the solved sequence
`(1..size * size + 1).collect()` (without touching the `solved` flag), then
run up to 20 rounds of random moves.  The random draws are made explicit:
`rounds` lists the directions of each round. -/
def scramble (b : Board) (rounds : List (List Direction)) : Option Board :=
  scrambleGo { b with cells := idSeq (b.size * b.size) } rounds

/-- Modelled from the spec: `set_cells(cells)` is named in the spec
(§4.1 Reset, §6) but absent from `src/src/main.rs`; per the spec it
"replaces the tile sequence wholesale ... and recomputes `solved`". -/
def set_cells (b : Board) (cells : List Int) : Board :=
  check_solved { b with cells := cells }

/-- The solved-state predicate of the spec: every cell holds its 1-based
index (`cells[i] == i + 1`). -/
def solvedPred (cells : List Int) : Prop :=
  ∀ i, ∀ h : i < cells.length, cells[i] = (i : Int) + 1

lemma checkSolvedGo_eq_true_iff (l : List Int) (k : Int) :
    checkSolvedGo l k = true ↔ ∀ i, ∀ h : i < l.length, l[i] = k + i + 1 := by
  induction l generalizing k with
  | nil => simp [checkSolvedGo]
  | cons c rest ih =>
    by_cases hc : c = k + 1
    · simp only [checkSolvedGo, hc, ne_eq, not_true_eq_false, if_false]
      rw [ih]
      constructor
      · intro H i h
        match i with
        | 0 => simp
        | Nat.succ n =>
          have hn : n < rest.length := by simpa using h
          have hv := H n hn
          simp only [List.getElem_cons_succ]
          rw [hv]
          push_cast
          ring
      · intro H i h
        have h2 : i + 1 < ((k + 1) :: rest).length := by simpa using Nat.succ_lt_succ h
        have hv := H (i + 1) h2
        simp only [List.getElem_cons_succ] at hv
        rw [hv]
        push_cast
        ring
    · simp only [checkSolvedGo, hc, ne_eq, not_false_eq_true, if_true]
      constructor
      · intro H
        exact absurd H (by simp)
      · intro H
        have h0 := H 0 (by simp)
        simp only [List.getElem_cons_zero] at h0
        exact absurd (by rw [h0]; norm_num) hc

lemma checkSolvedList_iff_solvedPred (l : List Int) :
    checkSolvedList l = true ↔ solvedPred l := by
  rw [checkSolvedList, checkSolvedGo_eq_true_iff]
  constructor
  · intro H i h
    have := H i h
    simpa using this
  · intro H i h
    have := H i h
    rw [this]
    ring

lemma length_idSeq (n : Nat) : (idSeq n).length = n := by
  rw [idSeq, List.length_map, List.length_range]

lemma getElem_idSeq (n i : Nat) (h : i < (idSeq n).length) :
    (idSeq n)[i] = (i : Int) + 1 := by
  simp only [idSeq, List.getElem_map, List.getElem_range]

lemma solvedPred_iff_eq_idSeq (l : List Int) :
    solvedPred l ↔ l = idSeq l.length := by
  constructor
  · intro H
    refine List.ext_getElem (by rw [length_idSeq]) ?_
    intro i h1 h2
    rw [H i h1, getElem_idSeq]
  · intro H
    rw [H]
    intro i h
    rw [getElem_idSeq]

lemma swapCells_perm (l : List Int) (i j : Nat) (hi : i < l.length)
    (hj : j < l.length) : (swapCells l i j).Perm l := by
  rw [List.perm_iff_count]
  intro a
  have hx : l.getD j 0 = l[j] := List.getD_eq_getElem l 0 hj
  have hy : l.getD i 0 = l[i] := List.getD_eq_getElem l 0 hi
  rw [swapCells, hx, hy]
  have hj2 : j < (l.set i (l[j])).length := by simpa using hj
  rw [List.count_set _ _ _ _ hj2, List.count_set _ _ _ _ hi]
  have hset : (l.set i (l[j]))[j] = l[j] := by
    rw [List.getElem_set]
    split <;> rfl
  rw [hset]
  have hcnt1 : l[i] = a → 0 < List.count a l := fun h =>
    List.count_pos_iff.mpr (h ▸ List.getElem_mem hi)
  have hcnt2 : l[j] = a → 0 < List.count a l := fun h =>
    List.count_pos_iff.mpr (h ▸ List.getElem_mem hj)
  simp only [beq_iff_eq]
  split_ifs <;>
    first
      | omega
      | (have hp := hcnt1 (by assumption)
         omega)

lemma get_empty_index_lt (b : Board) (e : Nat) (h : b.get_empty_index = some e) :
    e < b.cells.length :=
  ((List.findIdx?_eq_some_iff_findIdx_eq.1 h).1)

lemma get_empty_index_val (b : Board) (e : Nat) (h : b.get_empty_index = some e) :
    ∀ he : e < b.cells.length, b.cells[e] = 16 := by
  intro he
  obtain ⟨h1, h2⟩ := List.findIdx?_eq_some_iff_findIdx_eq.1 h
  have hlt : List.findIdx (fun cell => cell == 16) b.cells < b.cells.length := by
    rw [h2]
    exact h1
  have hp := @List.findIdx_getElem _ (fun cell => cell == 16) b.cells hlt
  simp only [h2] at hp
  simpa using hp

lemma get_empty_index_isSome (b : Board) (hmem : (16 : Int) ∈ b.cells) :
    ∃ e, b.get_empty_index = some e := by
  rw [get_empty_index]
  exact ⟨_, List.findIdx?_eq_some_of_exists ⟨16, hmem, by simp⟩⟩

lemma size_pos_of_wf (b : Board) (hWF : b.cells.length = b.size * b.size)
    (e : Nat) (he : e < b.cells.length) : 0 < b.size := by
  rcases Nat.eq_zero_or_pos b.size with h0 | h0
  · rw [h0, Nat.mul_zero] at hWF
    omega
  · exact h0

lemma get_neighbor_index_lt (b : Board) (hWF : b.cells.length = b.size * b.size)
    (e : Nat) (he : e < b.cells.length) (d : Direction) (ni : Nat)
    (h : b.get_neighbor_index e d = some ni) : ni < b.cells.length := by
  have hs : 0 < b.size := size_pos_of_wf b hWF e he
  have hrow : e / b.size < b.size := by
    rw [Nat.div_lt_iff_lt_mul hs]
    omega
  have hcol : e % b.size < b.size := Nat.mod_lt _ hs
  rw [hWF]
  cases d <;> simp only [get_neighbor_index] at h
  case up =>
    split at h
    · exact absurd h (by simp)
    · rename_i hr0
      have hni : ni = (e / b.size - 1) * b.size + e % b.size := by
        exact Option.some.inj h.symm
      have h1 : (e / b.size - 1) * b.size + e % b.size < (e / b.size - 1) * b.size + b.size :=
        Nat.add_lt_add_left hcol _
      have h2 : (e / b.size - 1) * b.size + b.size = (e / b.size) * b.size := by
        have h3 : e / b.size - 1 + 1 = e / b.size := Nat.succ_pred_eq_of_pos (Nat.pos_of_ne_zero hr0)
        calc (e / b.size - 1) * b.size + b.size = (e / b.size - 1 + 1) * b.size := by
              rw [Nat.succ_mul]
          _ = (e / b.size) * b.size := by rw [h3]
      have h4 : (e / b.size) * b.size ≤ b.size * b.size :=
        Nat.mul_le_mul_right _ (Nat.le_of_lt hrow)
      omega
  case down =>
    split at h
    · exact absurd h (by simp)
    · rename_i hr0
      have hni : ni = (e / b.size + 1) * b.size + e % b.size := by
        exact Option.some.inj h.symm
      have h1 : (e / b.size + 1) * b.size + e % b.size < (e / b.size + 1) * b.size + b.size :=
        Nat.add_lt_add_left hcol _
      have h2 : (e / b.size + 1) * b.size + b.size = (e / b.size + 2) * b.size := by
        ring
      have h5 : e / b.size + 2 ≤ b.size := by omega
      have h4 : (e / b.size + 2) * b.size ≤ b.size * b.size :=
        Nat.mul_le_mul_right _ h5
      omega
  case left =>
    split at h
    · exact absurd h (by simp)
    · rename_i hc0
      have hni : ni = (e / b.size) * b.size + e % b.size - 1 := by
        exact Option.some.inj h.symm
      have h1 : (e / b.size) * b.size + e % b.size < (e / b.size) * b.size + b.size :=
        Nat.add_lt_add_left hcol _
      have h2 : (e / b.size) * b.size + b.size = (e / b.size + 1) * b.size := by
        rw [Nat.succ_mul]
      have h5 : e / b.size + 1 ≤ b.size := hrow
      have h4 : (e / b.size + 1) * b.size ≤ b.size * b.size :=
        Nat.mul_le_mul_right _ h5
      omega
  case right =>
    split at h
    · exact absurd h (by simp)
    · rename_i hc0
      have hni : ni = (e / b.size) * b.size + e % b.size + 1 := by
        exact Option.some.inj h.symm
      have h6 : e % b.size + 1 < b.size := by
        have h7 : e % b.size ≤ b.size - 1 := by omega
        have h8 : e % b.size ≠ b.size - 1 := hc0
        omega
      have h1 : (e / b.size) * b.size + (e % b.size + 1) < (e / b.size) * b.size + b.size :=
        Nat.add_lt_add_left h6 _
      have h2 : (e / b.size) * b.size + b.size = (e / b.size + 1) * b.size := by
        rw [Nat.succ_mul]
      have h5 : e / b.size + 1 ≤ b.size := hrow
      have h4 : (e / b.size + 1) * b.size ≤ b.size * b.size :=
        Nat.mul_le_mul_right _ h5
      omega

lemma move_empty_some (b : Board) (d : Direction) (b2 : Board)
    (hWF : b.cells.length = b.size * b.size)
    (h : b.move_empty d = some b2) :
    b2.size = b.size ∧ b2.cells.Perm b.cells ∧ b2.solved = checkSolvedList b2.cells := by
  rcases hemp : b.get_empty_index with _ | e
  · rw [move_empty, hemp] at h
    exact absurd h (by simp)
  · have he : e < b.cells.length := get_empty_index_lt b e hemp
    rcases hnb : b.get_neighbor_index e d with _ | ni
    · rw [move_empty, hemp] at h
      simp only [hnb] at h
      have hb2 : check_solved b = b2 := Option.some.inj h
      rw [← hb2]
      exact ⟨rfl, List.Perm.refl _, rfl⟩
    · have hni : ni < b.cells.length := get_neighbor_index_lt b hWF e he d ni hnb
      rw [move_empty, hemp] at h
      simp only [hnb] at h
      rw [if_pos ⟨he, hni⟩] at h
      have hb2 := Option.some.inj h
      rw [← hb2]
      exact ⟨rfl, swapCells_perm b.cells e ni he hni, rfl⟩

lemma move_empty_isSome (b : Board) (d : Direction)
    (hWF : b.cells.length = b.size * b.size) (hmem : (16 : Int) ∈ b.cells) :
    ∃ b2, b.move_empty d = some b2 := by
  obtain ⟨e, hemp⟩ := get_empty_index_isSome b hmem
  have he : e < b.cells.length := get_empty_index_lt b e hemp
  rcases hnb : b.get_neighbor_index e d with _ | ni
  · refine ⟨check_solved b, ?_⟩
    rw [move_empty, hemp]
    simp only [hnb]
  · have hni : ni < b.cells.length := get_neighbor_index_lt b hWF e he d ni hnb
    refine ⟨check_solved { b with cells := swapCells b.cells e ni }, ?_⟩
    rw [move_empty, hemp]
    simp only [hnb]
    rw [if_pos ⟨he, hni⟩]

lemma applyMoves_some (ds : List Direction) :
    ∀ b b2 : Board, b.cells.length = b.size * b.size →
    applyMoves b ds = some b2 → b2.size = b.size ∧ b2.cells.Perm b.cells := by
  induction ds with
  | nil =>
    intro b b2 _ h
    simp only [applyMoves] at h
    rw [← Option.some.inj h]
    exact ⟨rfl, List.Perm.refl _⟩
  | cons d ds ih =>
    intro b b2 hWF h
    simp only [applyMoves] at h
    rcases hm : b.move_empty d with _ | b1
    · rw [hm] at h
      exact absurd h (by simp)
    · rw [hm] at h
      obtain ⟨hsz, hperm, _⟩ := move_empty_some b d b1 hWF hm
      have hWF1 : b1.cells.length = b1.size * b1.size := by
        rw [hperm.length_eq, hWF, hsz]
      obtain ⟨hsz2, hperm2⟩ := ih b1 b2 hWF1 h
      exact ⟨hsz2.trans hsz, hperm2.trans hperm⟩

lemma applyMoves_isSome (ds : List Direction) :
    ∀ b : Board, b.cells.length = b.size * b.size → (16 : Int) ∈ b.cells →
    ∃ b2, applyMoves b ds = some b2 := by
  induction ds with
  | nil =>
    intro b _ _
    exact ⟨b, rfl⟩
  | cons d ds ih =>
    intro b hWF hmem
    obtain ⟨b1, hm⟩ := move_empty_isSome b d hWF hmem
    obtain ⟨hsz, hperm, _⟩ := move_empty_some b d b1 hWF hm
    have hWF1 : b1.cells.length = b1.size * b1.size := by
      rw [hperm.length_eq, hWF, hsz]
    have hmem1 : (16 : Int) ∈ b1.cells := hperm.mem_iff.2 hmem
    obtain ⟨b2, h2⟩ := ih b1 hWF1 hmem1
    refine ⟨b2, ?_⟩
    simp only [applyMoves, hm]
    exact h2

lemma scrambleGo_some (rs : List (List Direction)) :
    ∀ b b2 : Board, b.cells.length = b.size * b.size →
    scrambleGo b rs = some b2 → b2.size = b.size ∧ b2.cells.Perm b.cells := by
  induction rs with
  | nil =>
    intro b b2 _ h
    simp only [scrambleGo] at h
    rw [← Option.some.inj h]
    exact ⟨rfl, List.Perm.refl _⟩
  | cons r rs ih =>
    intro b b2 hWF h
    simp only [scrambleGo] at h
    rcases ha : applyMoves b r with _ | b1
    · rw [ha] at h
      exact absurd h (by simp)
    · simp only [ha] at h
      obtain ⟨hsz, hperm⟩ := applyMoves_some r b b1 hWF ha
      have hWF1 : b1.cells.length = b1.size * b1.size := by
        rw [hperm.length_eq, hWF, hsz]
      by_cases hsv : b1.solved = true
      · rw [if_pos hsv] at h
        obtain ⟨hsz2, hperm2⟩ := ih b1 b2 hWF1 h
        exact ⟨hsz2.trans hsz, hperm2.trans hperm⟩
      · rw [if_neg hsv] at h
        rw [← Option.some.inj h]
        exact ⟨hsz, hperm⟩

lemma scrambleGo_isSome (rs : List (List Direction)) :
    ∀ b : Board, b.cells.length = b.size * b.size → (16 : Int) ∈ b.cells →
    ∃ b2, scrambleGo b rs = some b2 := by
  induction rs with
  | nil =>
    intro b _ _
    exact ⟨b, rfl⟩
  | cons r rs ih =>
    intro b hWF hmem
    obtain ⟨b1, ha⟩ := applyMoves_isSome r b hWF hmem
    obtain ⟨hsz, hperm⟩ := applyMoves_some r b b1 hWF ha
    have hWF1 : b1.cells.length = b1.size * b1.size := by
      rw [hperm.length_eq, hWF, hsz]
    have hmem1 : (16 : Int) ∈ b1.cells := hperm.mem_iff.2 hmem
    by_cases hsv : b1.solved = true
    · obtain ⟨b2, h2⟩ := ih b1 hWF1 hmem1
      refine ⟨b2, ?_⟩
      simp only [scrambleGo, ha]
      rw [if_pos hsv]
      exact h2
    · refine ⟨b1, ?_⟩
      simp only [scrambleGo, ha]
      rw [if_neg hsv]

lemma nodup_idSeq (n : Nat) : (idSeq n).Nodup := by
  refine List.Nodup.map ?_ (List.nodup_range n)
  intro a b hab
  have hab2 : (a : Int) = (b : Int) := by
    have := add_right_cancel hab
    exact this
  exact_mod_cast hab2

lemma move_empty_solved_eq (b : Board) (d : Direction) (b2 : Board)
    (h : b.move_empty d = some b2) : b2.solved = checkSolvedList b2.cells := by
  rcases hemp : b.get_empty_index with _ | e
  · rw [move_empty, hemp] at h
    exact absurd h (by simp)
  · rcases hnb : b.get_neighbor_index e d with _ | ni
    · rw [move_empty, hemp] at h
      simp only [hnb] at h
      rw [← Option.some.inj h]
      rfl
    · rw [move_empty, hemp] at h
      simp only [hnb] at h
      by_cases hlt : e < b.cells.length ∧ ni < b.cells.length
      · rw [if_pos hlt] at h
        rw [← Option.some.inj h]
        rfl
      · rw [if_neg hlt] at h
        exact absurd h (by simp)

end Board

/-! ## Claim theorems -/

/-- C1: For every board, after `Board::new`, after every `move_empty` call,
and after `check_solved`, the `solved` flag is true if and only if
`cells[i] == i + 1` for every index `i`; equivalently (for a board whose
cell list has length `size * size`) iff `cells = [1, 2, ..., size * size]`
in row-major order. -/
theorem solved_cache_consistent :
    (∀ (cells : List Int) (size : Nat),
      ((Board.new cells size).solved = true ↔
        Board.solvedPred (Board.new cells size).cells))
    ∧ (∀ (b : Board) (d : Direction) (b2 : Board), b.move_empty d = some b2 →
      (b2.solved = true ↔ Board.solvedPred b2.cells))
    ∧ (∀ b : Board,
      (b.check_solved.solved = true ↔ Board.solvedPred b.check_solved.cells))
    ∧ (∀ (cells : List Int) (n : Nat), cells.length = n * n →
      (Board.solvedPred cells ↔ cells = Board.idSeq (n * n))) := by
  refine ⟨?_, ?_, ?_, ?_⟩
  · intro cells size
    exact Board.checkSolvedList_iff_solvedPred cells
  · intro b d b2 h
    rw [Board.move_empty_solved_eq b d b2 h]
    exact Board.checkSolvedList_iff_solvedPred b2.cells
  · intro b
    exact Board.checkSolvedList_iff_solvedPred b.cells
  · intro cells n hlen
    rw [← hlen]
    exact Board.solvedPred_iff_eq_idSeq cells

/-- Witness for C1 at concrete boards: the solved board built by `new`, a
concrete `move_empty` step, a concrete `check_solved`, and the length-4
instance of the `cells = [1, ..., n * n]` equivalence. -/
theorem solved_cache_consistent_witness :
    ((Board.new (Board.idSeq 16) 4).solved = true ↔
      Board.solvedPred (Board.new (Board.idSeq 16) 4).cells)
    ∧ (((⟨[1, 2, 3, 4, 5, 6, 7, 8, 9, 10, 11, 16, 13, 14, 15, 12], 4, false⟩ :
          Board).solved = true ↔
        Board.solvedPred
          ((⟨[1, 2, 3, 4, 5, 6, 7, 8, 9, 10, 11, 16, 13, 14, 15, 12], 4, false⟩ :
            Board).cells)))
    ∧ ((Board.new (Board.idSeq 16) 4).check_solved.solved = true ↔
      Board.solvedPred (Board.new (Board.idSeq 16) 4).check_solved.cells)
    ∧ (Board.solvedPred (Board.idSeq 4) ↔ Board.idSeq 4 = Board.idSeq (2 * 2)) := by
  obtain ⟨h1, h2, h3, h4⟩ := solved_cache_consistent
  exact ⟨h1 (Board.idSeq 16) 4,
    h2 (Board.new (Board.idSeq 16) 4) Direction.up
      (⟨[1, 2, 3, 4, 5, 6, 7, 8, 9, 10, 11, 16, 13, 14, 15, 12], 4, false⟩ : Board)
      (by decide),
    h3 (Board.new (Board.idSeq 16) 4),
    h4 (Board.idSeq 4) 2 (by decide)⟩

/-- C2: For every board whose cells are a permutation of
`1..=size * size`, after any finite sequence of `move_empty` calls (in any
directions) that runs without panicking, the cells remain a permutation of
`1..=size * size`. -/
theorem moves_preserve_permutation (b : Board) (ds : List Direction) (b2 : Board)
    (hperm : b.cells.Perm (Board.idSeq (b.size * b.size)))
    (h : Board.applyMoves b ds = some b2) :
    b2.cells.Perm (Board.idSeq (b2.size * b2.size)) := by
  have hWF : b.cells.length = b.size * b.size := by
    rw [hperm.length_eq, Board.length_idSeq]
  obtain ⟨hsz, hp2⟩ := Board.applyMoves_some ds b b2 hWF h
  rw [hsz]
  exact hp2.trans hperm

/-- Witness for C2: two concrete moves (Up then Left) on the solved 4×4
board produce a concrete permutation of `1..=16`. -/
theorem moves_preserve_permutation_witness :
    (⟨[1, 2, 3, 4, 5, 6, 7, 8, 9, 10, 16, 11, 13, 14, 15, 12], 4, false⟩ :
      Board).cells.Perm
      (Board.idSeq
        ((⟨[1, 2, 3, 4, 5, 6, 7, 8, 9, 10, 16, 11, 13, 14, 15, 12], 4, false⟩ :
          Board).size *
         (⟨[1, 2, 3, 4, 5, 6, 7, 8, 9, 10, 16, 11, 13, 14, 15, 12], 4, false⟩ :
          Board).size)) :=
  moves_preserve_permutation (Board.new (Board.idSeq 16) 4)
    [Direction.up, Direction.left]
    (⟨[1, 2, 3, 4, 5, 6, 7, 8, 9, 10, 16, 11, 13, 14, 15, 12], 4, false⟩ : Board)
    (by decide) (by decide)

/-- C3: On a board whose `solved` cache is consistent with its cells, a
`move_empty` into a boundary direction (empty slot in row 0 and Up, row
`size - 1` and Down, column 0 and Left, or column `size - 1` and Right)
returns the identical board: cells unchanged and `solved` unchanged. -/
theorem boundary_move_is_noop (b : Board) (d : Direction) (e : Nat)
    (hsolved : b.solved = Board.checkSolvedList b.cells)
    (hemp : b.get_empty_index = some e)
    (hbound : (d = Direction.up ∧ e / b.size = 0)
      ∨ (d = Direction.down ∧ e / b.size = b.size - 1)
      ∨ (d = Direction.left ∧ e % b.size = 0)
      ∨ (d = Direction.right ∧ e % b.size = b.size - 1)) :
    b.move_empty d = some b := by
  have hnb : b.get_neighbor_index e d = none := by
    rcases hbound with ⟨hd, hc⟩ | ⟨hd, hc⟩ | ⟨hd, hc⟩ | ⟨hd, hc⟩ <;> subst hd <;>
      simp only [Board.get_neighbor_index] <;> rw [if_pos hc]
  rw [Board.move_empty, hemp]
  simp only [hnb]
  have hfix : Board.check_solved b = b := by
    rw [Board.check_solved, ← hsolved]
  rw [hfix]

/-- Witness for C3: on the solved board the empty slot is at index 15
(row 3 = size - 1), so a Down move is a no-op. -/
theorem boundary_move_is_noop_witness :
    (Board.new (Board.idSeq 16) 4).move_empty Direction.down =
      some (Board.new (Board.idSeq 16) 4) :=
  boundary_move_is_noop (Board.new (Board.idSeq 16) 4) Direction.down 15
    (by decide) (by decide) (Or.inr (Or.inl (by decide)))

/-- C5: On any 4×4 board, index 0 has no Up or Left neighbor, its Down
neighbor is 4 and its Right neighbor is 1; index 15 has no Down or Right
neighbor, its Up neighbor is 11 and its Left neighbor is 14. -/
theorem neighbor_corner_cases (b : Board) (hsize : b.size = 4) :
    b.get_neighbor_index 0 Direction.up = none
    ∧ b.get_neighbor_index 0 Direction.left = none
    ∧ b.get_neighbor_index 0 Direction.down = some 4
    ∧ b.get_neighbor_index 0 Direction.right = some 1
    ∧ b.get_neighbor_index 15 Direction.down = none
    ∧ b.get_neighbor_index 15 Direction.right = none
    ∧ b.get_neighbor_index 15 Direction.up = some 11
    ∧ b.get_neighbor_index 15 Direction.left = some 14 := by
  simp only [Board.get_neighbor_index, hsize]
  norm_num

/-- Witness for C5: the corner-neighbor facts hold on a concrete 4×4
board. -/
theorem neighbor_corner_cases_witness :
    (Board.new (Board.idSeq 16) 4).get_neighbor_index 0 Direction.up = none
    ∧ (Board.new (Board.idSeq 16) 4).get_neighbor_index 0 Direction.left = none
    ∧ (Board.new (Board.idSeq 16) 4).get_neighbor_index 0 Direction.down = some 4
    ∧ (Board.new (Board.idSeq 16) 4).get_neighbor_index 0 Direction.right = some 1
    ∧ (Board.new (Board.idSeq 16) 4).get_neighbor_index 15 Direction.down = none
    ∧ (Board.new (Board.idSeq 16) 4).get_neighbor_index 15 Direction.right = none
    ∧ (Board.new (Board.idSeq 16) 4).get_neighbor_index 15 Direction.up = some 11
    ∧ (Board.new (Board.idSeq 16) 4).get_neighbor_index 15 Direction.left = some 14 :=
  neighbor_corner_cases (Board.new (Board.idSeq 16) 4) rfl

/-- C4: For every outcome of the random number generator (20 rounds, each
of 20 to 99 random directions), `scramble` on a size-4 board succeeds and
leaves the cells a permutation of `1..=16`: it first resets the cells to
the solved sequence and then applies only `move_empty` calls. -/
theorem scramble_yields_permutation (b : Board) (rounds : List (List Direction))
    (hsize : b.size = 4) (hlen : rounds.length = 20)
    (hcnt : ∀ r ∈ rounds, 20 ≤ r.length ∧ r.length ≤ 99) :
    ∃ b2, b.scramble rounds = some b2 ∧ b2.cells.Perm (Board.idSeq 16) := by
  have hcells : ({ b with cells := Board.idSeq (b.size * b.size) } : Board).cells
      = Board.idSeq 16 := by
    rw [hsize]
  have hWF : ({ b with cells := Board.idSeq (b.size * b.size) } : Board).cells.length
      = ({ b with cells := Board.idSeq (b.size * b.size) } : Board).size
        * ({ b with cells := Board.idSeq (b.size * b.size) } : Board).size :=
    Board.length_idSeq _
  have hmem : (16 : Int) ∈ ({ b with cells := Board.idSeq (b.size * b.size) } : Board).cells := by
    rw [hcells]
    decide
  obtain ⟨b2, h2⟩ := Board.scrambleGo_isSome rounds _ hWF hmem
  obtain ⟨hsz, hperm⟩ := Board.scrambleGo_some rounds _ b2 hWF h2
  refine ⟨b2, h2, ?_⟩
  rw [hcells] at hperm
  exact hperm

/-- Witness for C4: a concrete RNG outcome (20 rounds of 20 Up moves each)
on the solved 4×4 board. -/
theorem scramble_yields_permutation_witness :
    ∃ b2, (Board.new (Board.idSeq 16) 4).scramble
        (List.replicate 20 (List.replicate 20 Direction.up)) = some b2
      ∧ b2.cells.Perm (Board.idSeq 16) :=
  scramble_yields_permutation (Board.new (Board.idSeq 16) 4)
    (List.replicate 20 (List.replicate 20 Direction.up))
    rfl (by decide) (by decide)

/-- C6 is false as stated: on the solved 4×4 board the empty slot is at
index 15 (bottom row), so `move_empty(Down)` is a no-op and the following
`move_empty(Up)` moves tile 12, leaving a board different from the solved
one. -/
theorem down_up_not_identity :
    ¬ (((Board.new (Board.idSeq 16) 4).move_empty Direction.down).bind
        (fun b => b.move_empty Direction.up) = some (Board.new (Board.idSeq 16) 4)) := by
  decide

/-- C6 (amended): for a solved 4×4 board, calling `move_empty(Up)` and then
`move_empty(Down)` returns the board to the identical solved permutation
(inverse-move round trip). -/
theorem up_down_round_trip :
    ((Board.new (Board.idSeq 16) 4).move_empty Direction.up).bind
      (fun b => b.move_empty Direction.down) = some (Board.new (Board.idSeq 16) 4) := by
  decide

/-- C7 is false as stated for sizes other than 4: on the size-2 board
`[1, 2, 3, 4]` the value `size * size = 4` sits at index 3, but
`get_empty_index` searches for the literal 16 and panics (returns `none`),
instead of returning index 3. -/
theorem get_empty_index_size2_cex :
    (Board.new [1, 2, 3, 4] 2).cells.getD 3 0 = ((2 : Int) * 2)
    ∧ (Board.new [1, 2, 3, 4] 2).get_empty_index = none
    ∧ ¬ ((Board.new [1, 2, 3, 4] 2).get_empty_index = some 3) := by
  decide

/-- C7 (amended): for every size-4 board whose cells are a permutation of
`1..=16`, `get_empty_index` returns the unique index at which the cells
hold the value `size * size = 16`. -/
theorem get_empty_index_finds_empty (b : Board) (hsize : b.size = 4)
    (hperm : b.cells.Perm (Board.idSeq (b.size * b.size))) :
    ∃ j, b.get_empty_index = some j
      ∧ ∃ hj : j < b.cells.length,
          b.cells[j] = ((b.size : Int) * b.size)
          ∧ ∀ k, ∀ hk : k < b.cells.length,
              b.cells[k] = ((b.size : Int) * b.size) → k = j := by
  have hval16 : ((b.size : Int) * b.size) = 16 := by
    rw [hsize]
    norm_num
  have hperm16 : b.cells.Perm (Board.idSeq 16) := by
    rw [hsize] at hperm
    exact hperm
  have hmem : (16 : Int) ∈ b.cells := hperm16.mem_iff.2 (by decide)
  obtain ⟨j, hemp⟩ := Board.get_empty_index_isSome b hmem
  have hj : j < b.cells.length := Board.get_empty_index_lt b j hemp
  have hjval : b.cells[j] = 16 := Board.get_empty_index_val b j hemp hj
  have hnodup : b.cells.Nodup :=
    hperm16.nodup_iff.2 (Board.nodup_idSeq 16)
  refine ⟨j, hemp, hj, by rw [hval16]; exact hjval, ?_⟩
  intro k hk hkval
  rw [hval16] at hkval
  exact (List.Nodup.getElem_inj_iff hnodup).1 (hkval.trans hjval.symm)

/-- Witness for C7 (amended): the fixture board with 16 at index 14. -/
theorem get_empty_index_finds_empty_witness :
    ∃ j, (Board.new [1, 2, 3, 4, 5, 6, 7, 8, 9, 10, 11, 12, 13, 14, 16, 15] 4).get_empty_index
        = some j
      ∧ ∃ hj : j <
          (Board.new [1, 2, 3, 4, 5, 6, 7, 8, 9, 10, 11, 12, 13, 14, 16, 15] 4).cells.length,
          (Board.new [1, 2, 3, 4, 5, 6, 7, 8, 9, 10, 11, 12, 13, 14, 16, 15] 4).cells[j]
            = (((Board.new [1, 2, 3, 4, 5, 6, 7, 8, 9, 10, 11, 12, 13, 14, 16, 15] 4).size : Int)
              * (Board.new [1, 2, 3, 4, 5, 6, 7, 8, 9, 10, 11, 12, 13, 14, 16, 15] 4).size)
          ∧ ∀ k, ∀ hk : k <
              (Board.new [1, 2, 3, 4, 5, 6, 7, 8, 9, 10, 11, 12, 13, 14, 16, 15] 4).cells.length,
              (Board.new [1, 2, 3, 4, 5, 6, 7, 8, 9, 10, 11, 12, 13, 14, 16, 15] 4).cells[k]
                = (((Board.new [1, 2, 3, 4, 5, 6, 7, 8, 9, 10, 11, 12, 13, 14, 16, 15] 4).size : Int)
                  * (Board.new [1, 2, 3, 4, 5, 6, 7, 8, 9, 10, 11, 12, 13, 14, 16, 15] 4).size)
              → k = j :=
  get_empty_index_finds_empty
    (Board.new [1, 2, 3, 4, 5, 6, 7, 8, 9, 10, 11, 12, 13, 14, 16, 15] 4)
    rfl (by decide)

/-- C8 is false as stated: in the fixture board
`[1, 2, ..., 14, 16, 15]` the cell at index 13 holds the value 14, not
15 (the value 15 sits at index 15). -/
theorem move_left_fixture_cex :
    ¬ ((Board.new [1, 2, 3, 4, 5, 6, 7, 8, 9, 10, 11, 12, 13, 14, 16, 15] 4).cells.getD 13 0
        = 15) := by
  decide

/-- C8 (amended): constructing the board from
`[1, 2, ..., 14, 16, 15]` with size 4 gives `solved = false`;
`move_empty(Left)` swaps the empty slot at index 14 with the cell at index
13, which holds the value 14, yielding `[1, ..., 13, 16, 14, 15]` with
`solved` recomputed (still false). -/
theorem move_left_fixture :
    (Board.new [1, 2, 3, 4, 5, 6, 7, 8, 9, 10, 11, 12, 13, 14, 16, 15] 4).solved = false
    ∧ (Board.new [1, 2, 3, 4, 5, 6, 7, 8, 9, 10, 11, 12, 13, 14, 16, 15] 4).get_empty_index
        = some 14
    ∧ (Board.new [1, 2, 3, 4, 5, 6, 7, 8, 9, 10, 11, 12, 13, 14, 16, 15] 4).cells.getD 13 0
        = 14
    ∧ (Board.new [1, 2, 3, 4, 5, 6, 7, 8, 9, 10, 11, 12, 13, 14, 16, 15] 4).move_empty
        Direction.left
        = some (Board.new [1, 2, 3, 4, 5, 6, 7, 8, 9, 10, 11, 12, 13, 16, 14, 15] 4)
    ∧ (Board.new [1, 2, 3, 4, 5, 6, 7, 8, 9, 10, 11, 12, 13, 16, 14, 15] 4).solved = false := by
  decide

/-- C9: the core exposes `set_cells(cells)`, which replaces the board's
tile sequence wholesale with the given sequence (leaving `size` alone) and
recomputes the `solved` flag from the new cells. -/
theorem set_cells_replaces_and_recomputes (b : Board) (cs : List Int) :
    (b.set_cells cs).cells = cs
    ∧ (b.set_cells cs).size = b.size
    ∧ ((b.set_cells cs).solved = true ↔ Board.solvedPred cs) :=
  ⟨rfl, rfl, Board.checkSolvedList_iff_solvedPred cs⟩

/-- C10: on a size-4 board whose cells are a permutation of `1..=16`, when
the empty slot (index `e`, holding 16) has a neighbor at index `j` in the
requested direction, `move_empty` changes exactly the cells at `e` and `j`:
the empty value 16 ends up at `j`, the former value at `j` ends up at `e`,
and every other cell, the list length and the `size` field are unchanged. -/
theorem move_with_neighbor_swaps_exactly (b : Board) (d : Direction) (e j : Nat)
    (hperm : b.cells.Perm (Board.idSeq 16)) (hsize : b.size = 4)
    (hemp : b.get_empty_index = some e)
    (hnb : b.get_neighbor_index e d = some j) :
    ∃ b2, b.move_empty d = some b2
      ∧ b2.size = b.size
      ∧ b2.cells.length = b.cells.length
      ∧ b2.cells.getD j 0 = b.cells.getD e 0
      ∧ b.cells.getD e 0 = (16 : Int)
      ∧ b2.cells.getD e 0 = b.cells.getD j 0
      ∧ ∀ k, k ≠ e → k ≠ j → b2.cells.getD k 0 = b.cells.getD k 0 := by
  have hWF : b.cells.length = b.size * b.size := by
    rw [hperm.length_eq, Board.length_idSeq, hsize]
  have he : e < b.cells.length := Board.get_empty_index_lt b e hemp
  have hj : j < b.cells.length := Board.get_neighbor_index_lt b hWF e he d j hnb
  have heval : b.cells[e] = 16 := Board.get_empty_index_val b e hemp he
  refine ⟨Board.check_solved { b with cells := Board.swapCells b.cells e j }, ?_, rfl, ?_, ?_, ?_, ?_, ?_⟩
  · rw [Board.move_empty, hemp]
    simp only [hnb]
    rw [if_pos ⟨he, hj⟩]
  · show (Board.swapCells b.cells e j).length = b.cells.length
    rw [Board.swapCells, List.length_set, List.length_set]
  · show (Board.swapCells b.cells e j).getD j 0 = b.cells.getD e 0
    rw [Board.swapCells, List.getD_eq_getElem?_getD, List.getElem?_set]
    rw [if_pos rfl, if_pos (by simpa using hj)]
    rfl
  · rw [List.getD_eq_getElem b.cells 0 he]
    exact heval
  · show (Board.swapCells b.cells e j).getD e 0 = b.cells.getD j 0
    by_cases hej : e = j
    · rw [Board.swapCells, List.getD_eq_getElem?_getD, List.getElem?_set]
      rw [if_pos hej.symm, if_pos (by simpa using hj)]
      rw [← hej]
      rfl
    · rw [Board.swapCells, List.getD_eq_getElem?_getD, List.getElem?_set]
      rw [if_neg (fun hje => hej hje.symm), List.getElem?_set]
      rw [if_pos rfl, if_pos he]
      rfl
  · intro k hke hkj
    show (Board.swapCells b.cells e j).getD k 0 = b.cells.getD k 0
    rw [Board.swapCells, List.getD_eq_getElem?_getD, List.getElem?_set]
    rw [if_neg (fun hjk => hkj hjk.symm), List.getElem?_set]
    rw [if_neg (fun hek => hke hek.symm)]
    rw [List.getD_eq_getElem?_getD]

/-- Witness for C10: the Left move on the fixture board
`[1, ..., 14, 16, 15]`, whose empty slot 14 has Left neighbor 13. -/
theorem move_with_neighbor_swaps_exactly_witness :
    ∃ b2, (Board.new [1, 2, 3, 4, 5, 6, 7, 8, 9, 10, 11, 12, 13, 14, 16, 15] 4).move_empty
          Direction.left = some b2
      ∧ b2.size = (Board.new [1, 2, 3, 4, 5, 6, 7, 8, 9, 10, 11, 12, 13, 14, 16, 15] 4).size
      ∧ b2.cells.length
          = (Board.new [1, 2, 3, 4, 5, 6, 7, 8, 9, 10, 11, 12, 13, 14, 16, 15] 4).cells.length
      ∧ b2.cells.getD 13 0
          = (Board.new [1, 2, 3, 4, 5, 6, 7, 8, 9, 10, 11, 12, 13, 14, 16, 15] 4).cells.getD 14 0
      ∧ (Board.new [1, 2, 3, 4, 5, 6, 7, 8, 9, 10, 11, 12, 13, 14, 16, 15] 4).cells.getD 14 0
          = (16 : Int)
      ∧ b2.cells.getD 14 0
          = (Board.new [1, 2, 3, 4, 5, 6, 7, 8, 9, 10, 11, 12, 13, 14, 16, 15] 4).cells.getD 13 0
      ∧ ∀ k, k ≠ 14 → k ≠ 13 → b2.cells.getD k 0
          = (Board.new [1, 2, 3, 4, 5, 6, 7, 8, 9, 10, 11, 12, 13, 14, 16, 15] 4).cells.getD k 0 :=
  move_with_neighbor_swaps_exactly
    (Board.new [1, 2, 3, 4, 5, 6, 7, 8, 9, 10, 11, 12, 13, 14, 16, 15] 4)
    Direction.left 14 13 (by decide) rfl (by decide) (by decide)
